import Mathlib

/-!
Shallow embedding of the restGo task service (PinceredCoder/restGo).

The embedding covers the validation-and-mapping pipeline of the service:
the storage-side `Task` record and its wire projection (`internal/database`,
`Task.ToProto`), the Mongo-backed repository operations modelled as
deterministic operations on a list of documents keyed by `_id`
(`internal/database/mongodb.go`), the handler state machines
decode → validate → execute → encode (`internal/handlers/tasks.go`), and the
validation-error conversion (`internal/handlers/validation.go`).

Effects are made explicit: the current time (`timestamppb.Now().AsTime().Unix()`)
and the freshly generated UUID (`uuid.New()`) are inputs to the handlers; the
result of `uuid.Parse` on the path parameter and of `protojson.Unmarshal` on the
body are passed as `Option` values, because both come from external libraries.
The Mongo driver is modelled on its happy path: the only storage failure kept in
the model is the duplicate-key error of `InsertOne` (`_id` uniqueness).
-/

namespace RestGo

/-- A 128-bit UUID, modelled abstractly as a natural number.  Only equality of
identifiers matters to the code under study. -/
abbrev UUID := Nat

/-- Storage-side task record (`internal/database`, struct `Task`): `_id`,
`title`, `description`, `completed`, `createdAt`, `updatedAt`; the timestamps
are `int64` Unix seconds. -/
structure Task where
  ID : UUID
  Title : String
  Description : String
  Completed : Bool
  CreatedAt : Int
  UpdatedAt : Int
deriving DecidableEq, Repr

/-- Wire-side task representation (`api/proto/v1` message `Task`): the embedding
keeps the UUID and the Unix seconds instead of their textual renderings, which
are injective on them (`uuid.UUID.String`, `timestamppb.New(time.Unix(·, 0))`). -/
structure ProtoTask where
  Id : UUID
  Title : String
  Description : String
  Completed : Bool
  CreatedAt : Int
  UpdatedAt : Int
deriving DecidableEq, Repr

/-- `Task.ToProto` (internal/database): field-for-field projection of the
storage record into the wire representation. -/
def Task.ToProto (t : Task) : ProtoTask :=
  { Id := t.ID
    Title := t.Title
    Description := t.Description
    Completed := t.Completed
    CreatedAt := t.CreatedAt
    UpdatedAt := t.UpdatedAt }

/-! ## Mongo collection semantics

A Mongo collection is a list of documents; `_id` is the primary key.  The four
driver primitives used by `internal/database/mongodb.go` are modelled on a
connected, responsive store: `InsertOne` fails exactly on a duplicate `_id`,
`FindOne`/`UpdateOne`/`DeleteOne` act on the first matching document and
succeed with zero matched documents when none matches the filter. -/

/-- The `$set` document used by `MongoTaskRepository.Update`: it overwrites
`title`, `description`, `completed` and `updatedAt` of a stored document and
nothing else. -/
def applySet (d : Task) (title descr : String) (completed : Bool)
    (updatedAt : Int) : Task :=
  { d with Title := title, Description := descr, Completed := completed,
           UpdatedAt := updatedAt }

/-- `collection.InsertOne`: appends the document, or fails with a duplicate-key
error when a document with the same `_id` is already stored. -/
def insertOne (s : List Task) (t : Task) : Except String (List Task) :=
  if s.any (fun d => d.ID = t.ID) then .error "duplicate key"
  else .ok (s ++ [t])

/-- `collection.FindOne` with filter `{_id: id}`: the first stored document
with that identifier, if any. -/
def findOne (s : List Task) (id : UUID) : Option Task :=
  s.find? (fun d => d.ID = id)

/-- `collection.UpdateOne` with filter `{_id: id}` and the `$set` document of
`MongoTaskRepository.Update`: rewrites the first matching document; matching
zero documents is a success that leaves the collection unchanged. -/
def updateOne : List Task → UUID → String → String → Bool → Int → List Task
  | [], _, _, _, _, _ => []
  | d :: rest, id, title, descr, completed, updatedAt =>
    if d.ID = id then applySet d title descr completed updatedAt :: rest
    else d :: updateOne rest id title descr completed updatedAt

/-- `collection.DeleteOne` with filter `{_id: id}`: removes the first matching
document; matching zero documents is a success that leaves the collection
unchanged. -/
def deleteOne : List Task → UUID → List Task
  | [], _ => []
  | d :: rest, id => if d.ID = id then rest else d :: deleteOne rest id

namespace MongoTaskRepository

/-- `MongoTaskRepository.Create`: inserts the task document. -/
def Create (s : List Task) (t : Task) : Except String (List Task) :=
  insertOne s t

/-- `MongoTaskRepository.FindByID`: `mongo.ErrNoDocuments` is translated into
the non-error absent outcome `none`. -/
def FindByID (s : List Task) (id : UUID) : Option Task :=
  findOne s id

/-- `MongoTaskRepository.FindAll`: every stored document, in store order. -/
def FindAll (s : List Task) : List Task := s

/-- `MongoTaskRepository.Update`: one `UpdateOne` call; the driver reports no
error when the filter matches nothing, so the operation always succeeds here. -/
def Update (s : List Task) (id : UUID) (task : Task) :
    Except String (List Task) :=
  .ok (updateOne s id task.Title task.Description task.Completed task.UpdatedAt)

/-- `MongoTaskRepository.Delete`: one `DeleteOne` call; as with `Update`, a
zero-match delete is a success. -/
def Delete (s : List Task) (id : UUID) : Except String (List Task) :=
  .ok (deleteOne s id)

end MongoTaskRepository

/-! ## Error taxonomy

Modelled from the spec: `internal/errors/errors.go` is absent from the sources;
the spec and the README fix the wire shape
`{type: VALIDATION_ERROR|NOT_FOUND|BAD_REQUEST|INTERNAL_ERROR, message, details?}`
and the constructor names used by the handlers
(`NewValidationError`, `NewBadRequestError`, `NewNotFoundError`,
`NewInternalError`), each producing its namesake kind. -/

/-- The four error kinds of the wire error envelope. -/
inductive ErrorKind
  | VALIDATION_ERROR
  | NOT_FOUND
  | BAD_REQUEST
  | INTERNAL_ERROR
deriving DecidableEq, Repr

/-- One field-level validation diagnostic (`errors.ValidationErrorDetail`). -/
structure ValidationErrorDetail where
  Field : String
  Message : String
deriving DecidableEq, Repr

/-- The `details` payload of the error envelope: absent, a list of field-level
diagnostics, or a free-form string map (the unstructured fallback). -/
inductive ErrorDetails
  | absent
  | fieldList (l : List ValidationErrorDetail)
  | rawMap (m : List (String × String))
deriving DecidableEq, Repr

/-- The wire error envelope (`errors.APIError`); `Typ` stands for the Go field
`Type` (wire name `type`), which is a reserved word here. -/
structure APIError where
  Typ : ErrorKind
  Message : String
  Details : ErrorDetails
deriving DecidableEq, Repr

/-- Modelled from the spec: `errors.NewValidationError`. -/
def NewValidationError (msg : String) (details : ErrorDetails) : APIError :=
  { Typ := .VALIDATION_ERROR, Message := msg, Details := details }

/-- Modelled from the spec: `errors.NewBadRequestError`. -/
def NewBadRequestError (msg : String) : APIError :=
  { Typ := .BAD_REQUEST, Message := msg, Details := .absent }

/-- Modelled from the spec: `errors.NewNotFoundError`. -/
def NewNotFoundError (msg : String) : APIError :=
  { Typ := .NOT_FOUND, Message := msg, Details := .absent }

/-- Modelled from the spec: `errors.NewInternalError`. -/
def NewInternalError (msg : String) : APIError :=
  { Typ := .INTERNAL_ERROR, Message := msg, Details := .absent }

/-! ## convertValidationError (internal/handlers/validation.go)

The handler derives field-level diagnostics by pattern-matching the validation
failure message: each trimmed line of the form `invalid <field-path>: <reason>`
becomes one `{field, message}` entry, the field name being the last
dot-component of the path; when no line parses, the raw message is returned
under a generic `error` key.  Either way the result is a `VALIDATION_ERROR`. -/

/-- `strings.TrimPrefix`: remove the leading occurrence of `p`, when present. -/
def stripLeading (s p : String) : String :=
  if s.startsWith p then s.drop p.length else s

/-- `strings.SplitN s sep 2` in the case the separator occurs: the text before
the first occurrence and everything after it. -/
def splitFirst (s sep : String) : Option (String × String) :=
  match s.splitOn sep with
  | [] => none
  | [_] => none
  | a :: rest => some (a, String.intercalate sep rest)

/-- The per-line parsing step of `convertValidationError`: a trimmed non-empty
line starting with `invalid ` and containing a colon yields one diagnostic. -/
def parseDetailLine (line : String) : Option ValidationErrorDetail :=
  let line := line.trim
  if line = "" then none
  else if line.startsWith "invalid " then
    match splitFirst line ":" with
    | some (p0, p1) =>
      let fieldPart := stripLeading p0 "invalid "
      let fieldParts := fieldPart.splitOn "."
      let fieldName :=
        if fieldParts.length > 1 then fieldParts.getLastD fieldPart
        else fieldPart
      some { Field := fieldName, Message := p1.trim }
    | none => none
  else none

/-- `convertValidationError` (internal/handlers/validation.go): parse the
message line by line; fall back to the raw message under an `error` key when no
field-specific diagnostic can be extracted. -/
def convertValidationError (errorMsg : String) : APIError :=
  let details := (errorMsg.splitOn "\n").filterMap parseDetailLine
  if details.length = 0 then
    NewValidationError "Validation failed" (.rawMap [("error", errorMsg)])
  else
    NewValidationError "Validation failed" (.fieldList details)

/-! ## Requests and their validation

The request messages come from `api/proto/v1/tasks.proto`; their generated
`Validate` methods are not in the sources and are modelled from the spec. -/

/-- `CreateTaskRequest` (`{title, description}`); with protojson an absent
proto3 string field decodes to the empty string. -/
structure CreateTaskRequest where
  Title : String
  Description : String
deriving DecidableEq, Repr

/-- `UpdateTaskRequest` (`{title, description, completed?}`); `completed` is an
optional bool, `nil` when absent from the body. -/
structure UpdateTaskRequest where
  Title : String
  Description : String
  Completed : Option Bool
deriving DecidableEq, Repr

/-- Modelled from the spec: the generated `CreateTaskRequest.Validate`
(missing from the sources) enforces title length 1–100 and description length
at most 500, and reports failures as `invalid <message>.<field>: <reason>`
lines.  Validation is a pure function of the request. -/
def CreateTaskRequest.Validate (req : CreateTaskRequest) : Option String :=
  if req.Title.length < 1 then
    some "invalid CreateTaskRequest.Title: value length must be at least 1 characters"
  else if req.Title.length > 100 then
    some "invalid CreateTaskRequest.Title: value length must be at most 100 characters"
  else if req.Description.length > 500 then
    some "invalid CreateTaskRequest.Description: value length must be at most 500 characters"
  else none

/-- Modelled from the spec: the generated `UpdateTaskRequest.Validate`
(missing from the sources) applies the same title/description constraints;
`completed` is unconstrained. -/
def UpdateTaskRequest.Validate (req : UpdateTaskRequest) : Option String :=
  if req.Title.length < 1 then
    some "invalid UpdateTaskRequest.Title: value length must be at least 1 characters"
  else if req.Title.length > 100 then
    some "invalid UpdateTaskRequest.Title: value length must be at most 100 characters"
  else if req.Description.length > 500 then
    some "invalid UpdateTaskRequest.Description: value length must be at most 500 characters"
  else none

/-- Modelled from the spec: `helpers.Map` (missing from the sources) is the
element-wise projection used by `GetAll` to turn stored records into wire
tasks. -/
def helpersMap {α β : Type} (l : List α) (f : α → β) : List β := l.map f

/-! ## protojson encoding of the list response

`GetAll` writes `protojson.Marshal(&ListTasksResponse{Tasks: ...})`
(tasks.go:38-49).  protojson is an external collaborator; its documented
default (`MarshalOptions` with `EmitUnpopulated = false`) omits every
unpopulated field: a proto3 implicit-presence scalar holding its default
value (empty string, `false`), and a repeated field that is empty.  A JSON
document is a list of key/value fields; scalar leaves whose Go rendering is
injective (the canonical dashed-hex form of a UUID, the RFC3339 form of a
Unix time) keep their payloads. -/

/-- A JSON value as protojson produces it for this service's messages. -/
inductive JsonValue
  | obj (fields : List (String × JsonValue))
  | arr (elems : List JsonValue)
  | str (s : String)
  | uuidStr (u : UUID)
  | timeStr (seconds : Int)
  | boolVal (b : Bool)

/-- protojson default marshalling of one wire `Task` message: `id` is the
canonical UUID string (never empty, hence never omitted); `title` and
`description` are omitted when empty; `completed` is omitted when `false`;
the two timestamp message fields are set whenever `ToProto` built the task,
hence always emitted. -/
def marshalTask (t : ProtoTask) : JsonValue :=
  .obj ([("id", .uuidStr t.Id)] ++
    (if t.Title = "" then [] else [("title", .str t.Title)]) ++
    (if t.Description = "" then [] else [("description", .str t.Description)]) ++
    (if t.Completed then [("completed", .boolVal true)] else []) ++
    [("createdAt", .timeStr t.CreatedAt), ("updatedAt", .timeStr t.UpdatedAt)])

/-- protojson default marshalling of `ListTasksResponse`: the repeated
`tasks` field is unpopulated when the list is empty and is then omitted from
the body, which serialises as the empty object. -/
def marshalListTasksResponse (ts : List ProtoTask) :
    List (String × JsonValue) :=
  if ts.isEmpty then [] else [("tasks", .arr (ts.map marshalTask))]

/-! ## Handlers (internal/handlers/tasks.go)

Each handler is a pure function of the decoded inputs, the current time, the
freshly generated identifier where applicable, and the stored collection; it
returns the written response and the collection afterwards.  `Option` inputs
stand for the fallible external steps: `uuid.Parse` of the path parameter and
body read + `protojson.Unmarshal`. -/

/-- What a handler writes: an error envelope with its status code, a
`GetTaskResponse` envelope (`{task}`), a `ListTasksResponse` envelope
(`{tasks}`), or an empty `204 No Content`. -/
inductive HandlerResponse
  | err (status : Nat) (e : APIError)
  | taskOk (status : Nat) (t : ProtoTask)
  | listOk (status : Nat) (ts : List ProtoTask)
  | noContent
deriving DecidableEq, Repr

/-- The HTTP status code of a handler response (`204` for the empty body). -/
def HandlerResponse.status : HandlerResponse → Nat
  | .err s _ => s
  | .taskOk s _ => s
  | .listOk s _ => s
  | .noContent => 204

namespace TaskHandler

/-- `TaskHandler.GetAll`: build `ListTasksResponse` over every stored task
projected to the wire shape, marshal it with protojson, and write the body
with the implicit status 200.  (The storage-failure and encoding-failure 500
paths need an unresponsive driver or a failing marshaller and are outside the
happy-path model.)  The result is the status code and the JSON body's
fields. -/
def GetAll (store : List Task) : Nat × List (String × JsonValue) :=
  (200, marshalListTasksResponse
    (helpersMap (MongoTaskRepository.FindAll store) Task.ToProto))

/-- `TaskHandler.Create`: decode body → validate → insert a record with the
fresh id, `completed=false` and both timestamps set to the single current time
→ respond 201 with the created task. -/
def Create (body : Option CreateTaskRequest) (now : Int) (taskID : UUID)
    (store : List Task) : HandlerResponse × List Task :=
  match body with
  | none => (.err 400 (NewBadRequestError "Invalid JSON format"), store)
  | some req =>
    match req.Validate with
    | some e => (.err 400 (convertValidationError e), store)
    | none =>
      let taskDb : Task :=
        { ID := taskID, Title := req.Title, Description := req.Description,
          Completed := false, CreatedAt := now, UpdatedAt := now }
      match MongoTaskRepository.Create store taskDb with
      | .error _ => (.err 500 (NewInternalError "Failed to create task"), store)
      | .ok s => (.taskOk 201 taskDb.ToProto, s)

/-- `TaskHandler.GetByID`: malformed id → 400; absent record → 404; otherwise
200 with the task. -/
def GetByID (parsedID : Option UUID) (store : List Task) : HandlerResponse :=
  match parsedID with
  | none => .err 400 (NewBadRequestError "Invalid task ID format")
  | some id =>
    match MongoTaskRepository.FindByID store id with
    | none => .err 404 (NewNotFoundError "Task not found")
    | some taskDb => .taskOk 200 taskDb.ToProto

/-- `TaskHandler.Update`: malformed id → 400; malformed body → 400; validation
failure → 400; absent record → 404; otherwise overwrite `title` and
`description` with the decoded values, overwrite `completed` only when the body
supplied it, refresh `updatedAt` to the current time, persist, and respond 200
with the updated task. -/
def Update (parsedID : Option UUID) (body : Option UpdateTaskRequest)
    (now : Int) (store : List Task) : HandlerResponse × List Task :=
  match parsedID with
  | none => (.err 400 (NewBadRequestError "Invalid task ID format"), store)
  | some id =>
    match body with
    | none => (.err 400 (NewBadRequestError "Invalid JSON format"), store)
    | some req =>
      match req.Validate with
      | some e => (.err 400 (convertValidationError e), store)
      | none =>
        match MongoTaskRepository.FindByID store id with
        | none => (.err 404 (NewNotFoundError "Task not found"), store)
        | some task0 =>
          let task1 := { task0 with Title := req.Title,
                                    Description := req.Description }
          let task2 := match req.Completed with
                       | some c => { task1 with Completed := c }
                       | none => task1
          let task3 := { task2 with UpdatedAt := now }
          match MongoTaskRepository.Update store id task3 with
          | .error _ =>
            (.err 500 (NewInternalError "Failed to update task"), store)
          | .ok s => (.taskOk 200 task3.ToProto, s)

/-- `TaskHandler.Delete`: malformed id → 400; otherwise delete (a zero-match
delete included) and respond 204. -/
def Delete (parsedID : Option UUID) (store : List Task) :
    HandlerResponse × List Task :=
  match parsedID with
  | none => (.err 400 (NewBadRequestError "Invalid task ID format"), store)
  | some id =>
    match MongoTaskRepository.Delete store id with
    | .error _ => (.err 500 (NewInternalError "Failed to delete task"), store)
    | .ok s => (.noContent, s)

end TaskHandler

/-! ## Operation traces

For store-invariant claims: one inbound request per step, each carrying the
server time observed during its handling (`timestamppb.Now`), times
non-decreasing along the trace. -/

/-- One inbound request, with the external decode results made explicit. -/
inductive Op
  | create (body : Option CreateTaskRequest) (taskID : UUID)
  | update (parsedID : Option UUID) (body : Option UpdateTaskRequest)
  | delete (parsedID : Option UUID)
  | getAll
  | getByID (parsedID : Option UUID)
deriving DecidableEq, Repr

/-- The store after handling one request at server time `now`. -/
def applyOp (store : List Task) (op : Op) (now : Int) : List Task :=
  match op with
  | .create body taskID => (TaskHandler.Create body now taskID store).2
  | .update pid body => (TaskHandler.Update pid body now store).2
  | .delete pid => (TaskHandler.Delete pid store).2
  | .getAll => store
  | .getByID _ => store

/-- The store after a whole trace of timed requests. -/
def runOps (store : List Task) : List (Op × Int) → List Task
  | [] => store
  | (op, now) :: rest => runOps (applyOp store op now) rest

/-- A non-decreasing server clock: each request's time is at least the clock
value before it. -/
def timesMono : Int → List (Op × Int) → Bool
  | _, [] => true
  | c, (_, t) :: rest => decide (c ≤ t) && timesMono t rest

/-- Clock-aware store invariant: every stored record was created no later than
it was last updated, and last updated no later than the current clock. -/
def WellFormedTimes (s : List Task) (clock : Int) : Prop :=
  ∀ t ∈ s, t.CreatedAt ≤ t.UpdatedAt ∧ t.UpdatedAt ≤ clock

instance (s : List Task) (clock : Int) : Decidable (WellFormedTimes s clock) :=
  inferInstanceAs (Decidable (∀ t ∈ s, _ ∧ _))

/-- The store invariant claimed by the spec, without the clock bound. -/
def CreatedBeforeUpdated (s : List Task) : Prop :=
  ∀ t ∈ s, t.CreatedAt ≤ t.UpdatedAt

instance (s : List Task) : Decidable (CreatedBeforeUpdated s) :=
  inferInstanceAs (Decidable (∀ t ∈ s, _))

/-! ## Helper lemmas -/

theorem convertValidationError_typ (msg : String) :
    (convertValidationError msg).Typ = .VALIDATION_ERROR := by
  simp only [convertValidationError]
  split <;> rfl

theorem findOne_eq_none_iff (s : List Task) (id : UUID) :
    findOne s id = none ↔ ∀ d ∈ s, d.ID ≠ id := by
  simp [findOne, List.find?_eq_none]

theorem updateOne_not_found (s : List Task) (id : UUID) (a b : String)
    (c : Bool) (u : Int) (h : ∀ d ∈ s, d.ID ≠ id) :
    updateOne s id a b c u = s := by
  induction s with
  | nil => rfl
  | cons d rest ih =>
    have hd : d.ID ≠ id := h d (List.mem_cons_self d rest)
    simp only [updateOne, if_neg hd]
    exact congrArg (d :: ·) (ih fun x hx => h x (List.mem_cons_of_mem d hx))

theorem deleteOne_not_found (s : List Task) (id : UUID)
    (h : ∀ d ∈ s, d.ID ≠ id) : deleteOne s id = s := by
  induction s with
  | nil => rfl
  | cons d rest ih =>
    have hd : d.ID ≠ id := h d (List.mem_cons_self d rest)
    simp only [deleteOne, if_neg hd]
    exact congrArg (d :: ·) (ih fun x hx => h x (List.mem_cons_of_mem d hx))

theorem findOne_updateOne (s : List Task) (id : UUID) (a b : String)
    (c : Bool) (u : Int) (d : Task) (h : findOne s id = some d) :
    findOne (updateOne s id a b c u) id = some (applySet d a b c u) := by
  induction s with
  | nil => simp [findOne] at h
  | cons x rest ih =>
    by_cases hx : x.ID = id
    · have hxd : x = d := by
        simpa [findOne, List.find?, hx] using h
      subst hxd
      simp [updateOne, hx, findOne, List.find?, applySet]
    · have h' : findOne rest id = some d := by
        simpa [findOne, List.find?, hx] using h
      simpa [updateOne, hx, findOne, List.find?] using ih h'

theorem mem_updateOne (s : List Task) (id : UUID) (a b : String) (c : Bool)
    (u : Int) (x : Task) (hx : x ∈ updateOne s id a b c u) :
    x ∈ s ∨ ∃ d ∈ s, x = applySet d a b c u := by
  induction s with
  | nil => simp [updateOne] at hx
  | cons y rest ih =>
    by_cases hy : y.ID = id
    · simp only [updateOne, if_pos hy, List.mem_cons] at hx
      rcases hx with hx | hx
      · exact Or.inr ⟨y, List.mem_cons_self y rest, hx⟩
      · exact Or.inl (List.mem_cons_of_mem y hx)
    · simp only [updateOne, if_neg hy, List.mem_cons] at hx
      rcases hx with hx | hx
      · exact Or.inl (hx ▸ List.mem_cons_self y rest)
      · rcases ih hx with h | ⟨d, hd, hdx⟩
        · exact Or.inl (List.mem_cons_of_mem y h)
        · exact Or.inr ⟨d, List.mem_cons_of_mem y hd, hdx⟩

theorem mem_deleteOne (s : List Task) (id : UUID) (x : Task)
    (hx : x ∈ deleteOne s id) : x ∈ s := by
  induction s with
  | nil => simp [deleteOne] at hx
  | cons y rest ih =>
    by_cases hy : y.ID = id
    · simp only [deleteOne, if_pos hy] at hx
      exact List.mem_cons_of_mem y hx
    · simp only [deleteOne, if_neg hy, List.mem_cons] at hx
      rcases hx with hx | hx
      · exact hx ▸ List.mem_cons_self y rest
      · exact List.mem_cons_of_mem y (ih hx)

theorem updateOne_map_frame (s : List Task) (id : UUID) (a b : String)
    (c : Bool) (u : Int) :
    (updateOne s id a b c u).map (fun x => (x.ID, x.CreatedAt)) =
      s.map (fun x => (x.ID, x.CreatedAt)) := by
  induction s with
  | nil => rfl
  | cons y rest ih =>
    by_cases hy : y.ID = id
    · simp [updateOne, hy, applySet]
    · simp only [updateOne, if_neg hy, List.map_cons]
      exact congrArg _ ih

theorem findOne_append_last (s : List Task) (t : Task) (id : UUID)
    (hnone : findOne s id = none) (ht : t.ID = id) :
    findOne (s ++ [t]) id = some t := by
  induction s with
  | nil => simp [findOne, List.find?, ht]
  | cons x rest ih =>
    have hx : x.ID ≠ id := by
      intro hxid
      simp [findOne, List.find?, hxid] at hnone
    have h' : findOne rest id = none := by
      simpa [findOne, List.find?, hx] using hnone
    simpa [findOne, List.find?, hx] using ih h'

theorem validate_create_ok (req : CreateTaskRequest)
    (h1 : 1 ≤ req.Title.length) (h2 : req.Title.length ≤ 100)
    (h3 : req.Description.length ≤ 500) : req.Validate = none := by
  unfold CreateTaskRequest.Validate
  rw [if_neg (by omega), if_neg (by omega), if_neg (by omega)]

theorem create_reduces (req : CreateTaskRequest) (now : Int) (taskID : UUID)
    (store : List Task) (hvalid : req.Validate = none)
    (hfresh : ∀ d ∈ store, d.ID ≠ taskID) :
    TaskHandler.Create (some req) now taskID store =
      (.taskOk 201
        (Task.ToProto ⟨taskID, req.Title, req.Description, false, now, now⟩),
       store ++ [⟨taskID, req.Title, req.Description, false, now, now⟩]) := by
  have hany : (store.any fun d => decide (d.ID = taskID)) = false := by
    simp only [List.any_eq_false, decide_eq_true_eq]
    exact hfresh
  simp [TaskHandler.Create, hvalid, MongoTaskRepository.Create, insertOne, hany]

theorem wf_mono {s : List Task} {c c' : Int} (h : WellFormedTimes s c)
    (hcc : c ≤ c') : WellFormedTimes s c' :=
  fun t ht => ⟨(h t ht).1, le_trans (h t ht).2 hcc⟩

theorem wf_insert {s : List Task} {c : Int} (t : Task)
    (h : WellFormedTimes s c) (h1 : t.CreatedAt ≤ t.UpdatedAt)
    (h2 : t.UpdatedAt ≤ c) : WellFormedTimes (s ++ [t]) c := by
  intro x hx
  rcases List.mem_append.mp hx with hx | hx
  · exact h x hx
  · rcases List.mem_singleton.mp hx with rfl
    exact ⟨h1, h2⟩

theorem wf_updateOne {s : List Task} {c : Int} (id : UUID) (a b : String)
    (k : Bool) (h : WellFormedTimes s c) :
    WellFormedTimes (updateOne s id a b k c) c := by
  intro x hx
  rcases mem_updateOne s id a b k c x hx with hx | ⟨d, hd, rfl⟩
  · exact h x hx
  · exact ⟨le_trans (h d hd).1 (h d hd).2, le_refl c⟩

theorem wf_applyOp {s : List Task} {c : Int} (op : Op) (now : Int)
    (h : WellFormedTimes s c) (hc : c ≤ now) :
    WellFormedTimes (applyOp s op now) now := by
  have h' : WellFormedTimes s now := wf_mono h hc
  cases op with
  | getAll => exact h'
  | getByID _ => exact h'
  | delete pid =>
    cases pid with
    | none => exact h'
    | some id =>
      intro x hx
      exact h' x (mem_deleteOne s id x (by
        simpa [applyOp, TaskHandler.Delete, MongoTaskRepository.Delete] using hx))
  | create body taskID =>
    cases body with
    | none => exact h'
    | some req =>
      cases hv : req.Validate with
      | some e => simpa [applyOp, TaskHandler.Create, hv] using h'
      | none =>
        by_cases hdup : (s.any fun d => decide (d.ID = taskID)) = true
        · simpa [applyOp, TaskHandler.Create, hv, MongoTaskRepository.Create,
            insertOne, hdup] using h'
        · have hred : applyOp s (.create (some req) taskID) now =
              s ++ [⟨taskID, req.Title, req.Description, false, now, now⟩] := by
            simp [applyOp, TaskHandler.Create, hv, MongoTaskRepository.Create,
              insertOne, hdup]
          rw [hred]
          exact wf_insert _ h' (le_refl now) (le_refl now)
  | update pid body =>
    cases pid with
    | none => exact h'
    | some id =>
      cases body with
      | none => exact h'
      | some req =>
        cases hv : req.Validate with
        | some e => simpa [applyOp, TaskHandler.Update, hv] using h'
        | none =>
          cases hf : MongoTaskRepository.FindByID s id with
          | none => simpa [applyOp, TaskHandler.Update, hv, hf] using h'
          | some task0 =>
            have hred : applyOp s (.update (some id) (some req)) now =
                updateOne s id req.Title req.Description
                  (match req.Completed with
                   | some k => k
                   | none => task0.Completed) now := by
              cases hk : req.Completed <;>
                simp [applyOp, TaskHandler.Update, hv, hf, hk,
                  MongoTaskRepository.Update]
            rw [hred]
            exact wf_updateOne id _ _ _ h'

theorem runOps_wf : ∀ (tr : List (Op × Int)) (s : List Task) (c : Int),
    WellFormedTimes s c → timesMono c tr = true →
    ∃ c', WellFormedTimes (runOps s tr) c'
  | [], s, c, hs, _ => ⟨c, hs⟩
  | (op, t) :: rest, s, c, hs, htr => by
    simp only [timesMono, Bool.and_eq_true, decide_eq_true_eq] at htr
    exact runOps_wf rest _ t (wf_applyOp op t hs htr.1) htr.2

/-! ## Claims -/

/-- C1: For every create request whose title has length 1 to 100 and whose
description has length at most 500, the Create handler stores and returns a
task whose id is the freshly generated UUID, whose completed field is false,
and whose createdAt equals its updatedAt, both being the single current time
taken at creation. -/
theorem create_valid_request_stores_fresh_task
    (req : CreateTaskRequest) (now : Int) (taskID : UUID) (store : List Task)
    (h1 : 1 ≤ req.Title.length) (h2 : req.Title.length ≤ 100)
    (h3 : req.Description.length ≤ 500)
    (hfresh : ∀ d ∈ store, d.ID ≠ taskID) :
    TaskHandler.Create (some req) now taskID store =
      (.taskOk 201 ⟨taskID, req.Title, req.Description, false, now, now⟩,
       store ++ [⟨taskID, req.Title, req.Description, false, now, now⟩]) := by
  rw [create_reduces req now taskID store (validate_create_ok req h1 h2 h3)
    hfresh]
  rfl

theorem create_valid_request_stores_fresh_task_witness :
    TaskHandler.Create (some ⟨"My Task", "desc"⟩) 100 7 [] =
      (.taskOk 201 ⟨7, "My Task", "desc", false, 100, 100⟩,
       [⟨7, "My Task", "desc", false, 100, 100⟩]) :=
  create_valid_request_stores_fresh_task ⟨"My Task", "desc"⟩ 100 7 []
    (by decide) (by decide) (by decide) (by decide)

/-- C2: For every create request with an empty title, a title longer than 100
characters, or a description longer than 500 characters, the Create handler
responds 400 with error kind VALIDATION_ERROR and leaves the stored state
exactly as it was (validation is a pure function of the request and no
repository operation is reached). -/
theorem create_invalid_request_validation_error
    (req : CreateTaskRequest) (now : Int) (taskID : UUID) (store : List Task)
    (hbad : req.Title.length = 0 ∨ 100 < req.Title.length ∨
      500 < req.Description.length) :
    ∃ e, TaskHandler.Create (some req) now taskID store = (.err 400 e, store) ∧
      e.Typ = .VALIDATION_ERROR := by
  have hv : req.Validate.isSome := by
    unfold CreateTaskRequest.Validate
    rcases hbad with h | h | h
    · rw [if_pos (by omega)]; rfl
    · rw [if_neg (by omega), if_pos h]; rfl
    · by_cases ha : req.Title.length < 1
      · rw [if_pos ha]; rfl
      · by_cases hb : 100 < req.Title.length
        · rw [if_neg ha, if_pos hb]; rfl
        · rw [if_neg ha, if_neg hb, if_pos h]; rfl
  obtain ⟨m, hm⟩ := Option.isSome_iff_exists.mp hv
  exact ⟨convertValidationError m, by simp [TaskHandler.Create, hm],
    convertValidationError_typ m⟩

theorem create_invalid_request_validation_error_witness :
    ∃ e, TaskHandler.Create (some ⟨"", "desc"⟩) 100 7 [] = (.err 400 e, []) ∧
      e.Typ = .VALIDATION_ERROR :=
  create_invalid_request_validation_error ⟨"", "desc"⟩ 100 7 []
    (Or.inl (by decide))

/-- C3: For every id, the repository's update and delete operations return
success even when no stored record matches that id, and in that case they
leave the store unchanged. -/
theorem repo_update_delete_missing_id_noop (s : List Task) (id : UUID)
    (task : Task) (habsent : findOne s id = none) :
    MongoTaskRepository.Update s id task = .ok s ∧
    MongoTaskRepository.Delete s id = .ok s := by
  have h := (findOne_eq_none_iff s id).mp habsent
  constructor
  · unfold MongoTaskRepository.Update
    rw [updateOne_not_found _ _ _ _ _ _ h]
  · unfold MongoTaskRepository.Delete
    rw [deleteOne_not_found _ _ h]

theorem repo_update_delete_missing_id_noop_witness :
    MongoTaskRepository.Update [⟨1, "a", "", false, 0, 0⟩] 2
        ⟨2, "b", "", true, 5, 5⟩ = .ok [⟨1, "a", "", false, 0, 0⟩] ∧
    MongoTaskRepository.Delete [⟨1, "a", "", false, 0, 0⟩] 2 =
      .ok [⟨1, "a", "", false, 0, 0⟩] :=
  repo_update_delete_missing_id_noop [⟨1, "a", "", false, 0, 0⟩] 2
    ⟨2, "b", "", true, 5, 5⟩ (by decide)

/-- C4: For every stored task and every valid update request: omitting the
completed field preserves the previously stored value, supplying
completed=true sets it to true, and in both cases the updated record's
updatedAt is at least the prior updatedAt (assuming a non-decreasing clock). -/
theorem update_completed_semantics
    (id : UUID) (req : UpdateTaskRequest) (now : Int) (store : List Task)
    (task0 : Task) (hfound : findOne store id = some task0)
    (hvalid : req.Validate = none) (hclock : task0.UpdatedAt ≤ now) :
    ∃ t', findOne (TaskHandler.Update (some id) (some req) now store).2 id =
        some t' ∧
      (req.Completed = none → t'.Completed = task0.Completed) ∧
      (req.Completed = some true → t'.Completed = true) ∧
      task0.UpdatedAt ≤ t'.UpdatedAt := by
  have hsnd : (TaskHandler.Update (some id) (some req) now store).2 =
      updateOne store id req.Title req.Description
        (match req.Completed with | some k => k | none => task0.Completed)
        now := by
    cases hk : req.Completed <;>
      simp [TaskHandler.Update, hvalid, MongoTaskRepository.FindByID, hfound,
        hk, MongoTaskRepository.Update]
  refine ⟨applySet task0 req.Title req.Description
    (match req.Completed with | some k => k | none => task0.Completed) now,
    ?_, ?_, ?_, ?_⟩
  · rw [hsnd]
    exact findOne_updateOne store id _ _ _ now task0 hfound
  · intro h
    simp [applySet, h]
  · intro h
    simp [applySet, h]
  · simpa [applySet] using hclock

theorem update_completed_semantics_witness :
    ∃ t', findOne (TaskHandler.Update (some 1) (some ⟨"b", "new", none⟩) 10
        [⟨1, "a", "old", true, 0, 0⟩]).2 1 = some t' ∧
      ((none : Option Bool) = none → t'.Completed = true) ∧
      ((none : Option Bool) = some true → t'.Completed = true) ∧
      (0 : Int) ≤ t'.UpdatedAt :=
  update_completed_semantics 1 ⟨"b", "new", none⟩ 10
    [⟨1, "a", "old", true, 0, 0⟩] ⟨1, "a", "old", true, 0, 0⟩
    (by decide) (by decide) (by decide)

/-- C5: For every valid create request, creating a task and then fetching it
by the id returned in the create response yields a task whose title,
description and completed fields are identical to those of the create
response, with updatedAt unchanged from the value returned at creation. -/
theorem create_then_get_round_trip
    (req : CreateTaskRequest) (now : Int) (taskID : UUID) (store : List Task)
    (h1 : 1 ≤ req.Title.length) (h2 : req.Title.length ≤ 100)
    (h3 : req.Description.length ≤ 500)
    (hfresh : ∀ d ∈ store, d.ID ≠ taskID) :
    (TaskHandler.Create (some req) now taskID store).1 =
      .taskOk 201 ⟨taskID, req.Title, req.Description, false, now, now⟩ ∧
    TaskHandler.GetByID (some taskID)
        (TaskHandler.Create (some req) now taskID store).2 =
      .taskOk 200 ⟨taskID, req.Title, req.Description, false, now, now⟩ := by
  have hred := create_reduces req now taskID store
    (validate_create_ok req h1 h2 h3) hfresh
  rw [hred]
  refine ⟨rfl, ?_⟩
  have hnone : findOne store taskID = none :=
    (findOne_eq_none_iff store taskID).mpr hfresh
  have hfind := findOne_append_last store
    ⟨taskID, req.Title, req.Description, false, now, now⟩ taskID hnone rfl
  simp [TaskHandler.GetByID, MongoTaskRepository.FindByID, hfind, Task.ToProto]

theorem create_then_get_round_trip_witness :
    (TaskHandler.Create (some ⟨"Shopping", "milk"⟩) 42 9 []).1 =
      .taskOk 201 ⟨9, "Shopping", "milk", false, 42, 42⟩ ∧
    TaskHandler.GetByID (some 9)
        (TaskHandler.Create (some ⟨"Shopping", "milk"⟩) 42 9 []).2 =
      .taskOk 200 ⟨9, "Shopping", "milk", false, 42, 42⟩ :=
  create_then_get_round_trip ⟨"Shopping", "milk"⟩ 42 9 []
    (by decide) (by decide) (by decide) (by decide)

/-- C6: Every task record reachable through any sequence of create, update
and delete requests satisfies createdAt ≤ updatedAt, under the hypothesis
that the server clock is non-decreasing across operations. -/
theorem createdAt_le_updatedAt_invariant (s : List Task) (c : Int)
    (tr : List (Op × Int)) (hs : WellFormedTimes s c)
    (htr : timesMono c tr = true) :
    CreatedBeforeUpdated (runOps s tr) := by
  obtain ⟨c', hc'⟩ := runOps_wf tr s c hs htr
  exact fun t ht => (hc' t ht).1

theorem createdAt_le_updatedAt_invariant_witness :
    CreatedBeforeUpdated (runOps []
      [(.create (some ⟨"a", "d"⟩) 5, 10),
       (.update (some 5) (some ⟨"b", "", some true⟩), 20),
       (.create (some ⟨"c", ""⟩) 6, 20),
       (.delete (some 6), 30)]) :=
  createdAt_le_updatedAt_invariant [] 0 _ (by decide) (by decide)

/-- C7: Every repository update leaves the id and createdAt of every stored
record unchanged: the `$set` document touches only title, description,
completed and updatedAt. -/
theorem update_frame_id_createdAt (s : List Task) (id : UUID) (task : Task) :
    MongoTaskRepository.Update s id task =
      .ok (updateOne s id task.Title task.Description task.Completed
        task.UpdatedAt) ∧
    (updateOne s id task.Title task.Description task.Completed
        task.UpdatedAt).map (fun x => (x.ID, x.CreatedAt)) =
      s.map (fun x => (x.ID, x.CreatedAt)) :=
  ⟨rfl, updateOne_map_frame s id task.Title task.Description task.Completed
    task.UpdatedAt⟩

/-- C8: For every request to the get-by-id or delete endpoint whose path id
does not parse as a UUID, the handler responds 400 BAD_REQUEST, regardless
of the stored state — never 404 or 500. -/
theorem malformed_id_bad_request (store : List Task) :
    TaskHandler.GetByID none store =
      .err 400 (NewBadRequestError "Invalid task ID format") ∧
    TaskHandler.Delete none store =
      (.err 400 (NewBadRequestError "Invalid task ID format"), store) :=
  ⟨rfl, rfl⟩

/-- C9, counterexample to the claim as stated: on the empty store the list
endpoint does respond 200, but the JSON body protojson produces is the empty
object — looking up the `tasks` key in the body's fields yields nothing, so
the `tasks` field IS absent from the response body. -/
theorem getAll_empty_store_tasks_absent :
    (TaskHandler.GetAll []).1 = 200 ∧
    List.lookup "tasks" (TaskHandler.GetAll []).2 = none :=
  ⟨rfl, rfl⟩

/-- C9 (amended): when the store contains no tasks, the list endpoint
responds 200 and, protojson's default options omitting an empty repeated
field, the body is the empty JSON object: the empty task sequence is omitted
rather than emitted (and never null — decoding such a body yields an empty
task sequence). -/
theorem getAll_empty_store : TaskHandler.GetAll [] = (200, []) := rfl

/-- C10: For every update request that passes validation, the handler
unconditionally overwrites the stored title and description with the decoded
request values (so a body that omits description, which decodes to the empty
string, erases the stored description), while an update body whose title
decodes to the empty string is rejected by validation with 400 and changes
nothing. -/
theorem update_overwrites_title_description
    (id : UUID) (req : UpdateTaskRequest) (now : Int) (store : List Task)
    (task0 : Task) (hfound : findOne store id = some task0) :
    (req.Validate = none →
      findOne (TaskHandler.Update (some id) (some req) now store).2 id =
        some (applySet task0 req.Title req.Description
          (match req.Completed with | some k => k | none => task0.Completed)
          now)) ∧
    (req.Title = "" →
      ∃ e, TaskHandler.Update (some id) (some req) now store =
          (.err 400 e, store) ∧
        e.Typ = .VALIDATION_ERROR) := by
  constructor
  · intro hvalid
    have hsnd : (TaskHandler.Update (some id) (some req) now store).2 =
        updateOne store id req.Title req.Description
          (match req.Completed with | some k => k | none => task0.Completed)
          now := by
      cases hk : req.Completed <;>
        simp [TaskHandler.Update, hvalid, MongoTaskRepository.FindByID, hfound,
          hk, MongoTaskRepository.Update]
    rw [hsnd]
    exact findOne_updateOne store id _ _ _ now task0 hfound
  · intro ht
    have hlen : req.Title.length < 1 := by
      rw [ht]
      decide
    have hv : req.Validate.isSome := by
      unfold UpdateTaskRequest.Validate
      rw [if_pos hlen]
      rfl
    obtain ⟨m, hm⟩ := Option.isSome_iff_exists.mp hv
    exact ⟨convertValidationError m, by simp [TaskHandler.Update, hm],
      convertValidationError_typ m⟩

theorem update_overwrites_title_description_witness :
    findOne (TaskHandler.Update (some 1) (some ⟨"new", "", none⟩) 10
        [⟨1, "t", "old desc", false, 0, 0⟩]).2 1 =
      some ⟨1, "new", "", false, 0, 10⟩ := by
  have h := (update_overwrites_title_description 1 ⟨"new", "", none⟩ 10
    [⟨1, "t", "old desc", false, 0, 0⟩] ⟨1, "t", "old desc", false, 0, 0⟩
    (by decide)).1 (by decide)
  simpa [applySet] using h

end RestGo
